import Mathlib

/-!
Shallow embedding of `create_pip_requirement.py`: an environment-aware
requirements-file generator.  Python strings are Lean `String`s; the text
primitives the script uses (`str.splitlines`, `str.split("==")`,
`str.startswith`, `"\n".join`, `in`) are modelled character-exactly on
`List Char`.  `pathlib.Path` values are modelled in parsed form (root flag
plus component list), matching pathlib's internal representation; rendering
back to a string models `str(path)`.  The filesystem and the child `pip`
process are explicit inputs of the model, so `create_pip_requirement` is a
pure state transformer.
-/

namespace PyReq

/-- Characters that Python `str.splitlines` treats as line boundaries
(LF, CR, VT, FF, FS, GS, RS, NEL, LS, PS; the CRLF pair is handled
separately in `normNewlines`). -/
def isLineBreakChar (c : Char) : Bool :=
  c == '\n' || c == '\r' || c == '\x0b' || c == '\x0c' ||
  c == '\x1c' || c == '\x1d' || c == '\x1e' || c == '\x85' ||
  c == '\u2028' || c == '\u2029'

/-- Prepend a character to the first piece of a split result (helper for
the character-level splitters). -/
def consHead (c : Char) : List (List Char) → List (List Char)
  | [] => [[c]]
  | l :: ls => (c :: l) :: ls

/-- Collapse each CRLF pair to a single LF, as `str.splitlines` treats
`"\r\n"` as one boundary. -/
def normNewlines : List Char → List Char
  | [] => []
  | [c] => [c]
  | c :: d :: rest =>
    if c = '\r' ∧ d = '\n' then '\n' :: normNewlines rest
    else c :: normNewlines (d :: rest)

/-- Split at every line-boundary character (after CRLF normalisation);
the boundary characters are consumed and no trailing empty piece is
produced, matching `str.splitlines`. -/
def splitBreaks : List Char → List (List Char)
  | [] => []
  | c :: rest =>
    if isLineBreakChar c then [] :: splitBreaks rest
    else consHead c (splitBreaks rest)

/-- Character-level model of Python `str.splitlines()`. -/
def splitlinesChars (l : List Char) : List (List Char) :=
  splitBreaks (normNewlines l)

/-- Model of Python `str.splitlines()` on strings. -/
def pySplitlines (s : String) : List String :=
  (splitlinesChars s.data).map (fun l => (⟨l⟩ : String))

/-- Character-level model of `"\n".join(...)`. -/
def joinNL : List (List Char) → List Char
  | [] => []
  | [l] => l
  | l :: ls => l ++ '\n' :: joinNL ls

/-- Model of Python `"\n".join(lines)`. -/
def pyJoinLines (lines : List String) : String :=
  (⟨joinNL (lines.map String.data)⟩ : String)

/-- Character-level prefix test (model of `str.startswith`). -/
def startsSeq : List Char → List Char → Bool
  | [], _ => true
  | _ :: _, [] => false
  | p :: ps, c :: cs => p == c && startsSeq ps cs

/-- Model of Python `s.startswith(pre)`. -/
def pyStartsWith (s pre : String) : Bool :=
  startsSeq pre.data s.data

/-- Character-level model of `str.split("==")`: leftmost-first,
non-overlapping occurrences of the two-character separator. -/
def splitEqEq : List Char → List (List Char)
  | [] => [[]]
  | [c] => [[c]]
  | c :: d :: rest =>
    if c = '=' ∧ d = '=' then [] :: splitEqEq rest
    else consHead c (splitEqEq (d :: rest))

/-- Model of `line.split("==")[0]`: the text before the first `==`
separator (the whole line when no separator occurs). -/
def pyStripVersion (line : String) : String :=
  (⟨(splitEqEq line.data).headD []⟩ : String)

/-- Drop a single trailing empty piece, if present: exactly the
difference between the pieces handed to `"\n".join` and the result of
re-running `str.splitlines` on the joined text (character level). -/
def stripTrailOne : List (List Char) → List (List Char)
  | [] => []
  | [l] => if l = [] then [] else [l]
  | l :: ls => l :: stripTrailOne ls

/-- Drop a single trailing empty line, if present (string level). -/
def stripTrailStr : List String → List String
  | [] => []
  | [s] => if s = "" then [] else [s]
  | s :: ss => s :: stripTrailStr ss

/-- Character-level model of Python substring containment (`sub in s`). -/
def containsSeq (sub : List Char) : List Char → Bool
  | [] => sub.isEmpty
  | c :: rest => startsSeq sub (c :: rest) || containsSeq sub rest

/-- Model of Python `sub in s`. -/
def strContains (s sub : String) : Bool :=
  containsSeq sub.data s.data

/-- The listing post-processing of `create_pip_requirement` (source lines
37-48): drop lines starting with the editable-install marker `-e`, then,
when `remove_versions` is set, re-split the joined text and keep only the
part of each line before `==`. -/
def processOutput (stdout : String) (remove_versions : Bool) : String :=
  let filtered_output :=
    pyJoinLines ((pySplitlines stdout).filter (fun line => !(pyStartsWith line "-e")))
  if remove_versions then
    pyJoinLines ((pySplitlines filtered_output).map pyStripVersion)
  else filtered_output

/-- Character-level model of `str.split(sep)` for a one-character
separator (used by pathlib's component parsing). -/
def splitOnChar (sep : Char) : List Char → List (List Char)
  | [] => [[]]
  | c :: rest =>
    if c == sep then [] :: splitOnChar sep rest
    else consHead c (splitOnChar sep rest)

/-- A POSIX `pathlib.PurePath` value in parsed form: whether the path is
absolute, and its components with empty and `"."` segments dropped (as
pathlib's parser does). -/
structure PyPath where
  absolute : Bool
  parts : List String
deriving DecidableEq

/-- Parse a string into a `PyPath`, following pathlib's POSIX parsing:
split on `/`, drop empty and `"."` components, record whether the string
begins with `/`. -/
def parsePath (s : String) : PyPath :=
  { absolute := pyStartsWith s "/"
    parts := ((splitOnChar '/' s.data).map (fun l => (⟨l⟩ : String))).filter
      (fun p => !(p == "") && !(p == ".")) }

/-- Model of `Path.name`: the final component, or `""` when there is
none. -/
def PyPath.name (p : PyPath) : String :=
  p.parts.getLastD ""

/-- Model of `Path.parent`: drop the final component (the parent of the
root or of an empty relative path is itself, as in pathlib). -/
def PyPath.parent (p : PyPath) : PyPath :=
  { p with parts := p.parts.dropLast }

/-- Model of pathlib's `path / other`: the right operand is parsed as a
path of its own; if it is absolute it anchors the result and the left
operand is dropped entirely, otherwise its components (with empty and
`"."` segments removed) are appended. -/
def PyPath.child (p : PyPath) (seg : String) : PyPath :=
  if (parsePath seg).absolute then parsePath seg
  else { p with parts := p.parts ++ (parsePath seg).parts }

/-- Join a list of strings with a separator (model of what pathlib's
`str()` does between components; same function as `String.intercalate`,
defined by recursion so its equations are directly usable). -/
def strIntercalate (sep : String) : List String → String
  | [] => ""
  | [a] => a
  | a :: l => a ++ sep ++ strIntercalate sep l

/-- Model of `str(path)` for a parsed POSIX path. -/
def PyPath.render (p : PyPath) : String :=
  if p.absolute then "/" ++ strIntercalate "/" p.parts
  else if p.parts = [] then "." else strIntercalate "/" p.parts

/-- Textual path join of a directory string and one further segment,
read with pathlib's rendering conventions (`"/"` and `"."` do not get an
extra separator). -/
def joinSeg (a seg : String) : String :=
  if a = "/" then "/" ++ seg
  else if a = "." then seg
  else a ++ "/" ++ seg

/-- All the directories `Path.mkdir(parents=True)` creates for a path:
every non-empty prefix of its component list, rendered. -/
def PyPath.ancestorsIncl (p : PyPath) : List String :=
  (List.range p.parts.length).map
    (fun i => PyPath.render { absolute := p.absolute, parts := p.parts.take (i + 1) })

/-- Python truthiness of an `os.environ.get` result: `None` and the empty
string are falsy. -/
def optTruthy : Option String → Bool
  | none => false
  | some s => !(s == "")

/-- Model of `get_env_name` (source lines 6-15): the final component of
`$VIRTUAL_ENV` when that variable is truthy, else the raw value of
`$CONDA_DEFAULT_ENV` when truthy, else `"global"`. -/
def get_env_name (virtual_env conda_default_env : Option String) : String :=
  if optTruthy virtual_env then (parsePath (virtual_env.getD "")).name
  else if optTruthy conda_default_env then conda_default_env.getD ""
  else "global"

/-- Outcome of the child `pip freeze` process: captured stdout and stderr
on success, or the non-zero return code with the captured streams on
failure (`subprocess.run(..., check=True)` raises `CalledProcessError`
in the latter case). -/
inductive PipResult where
  | ok (stdout : String) (stderr : String)
  | err (returncode : Int) (stdout : String) (stderr : String)
deriving DecidableEq

/-- The ambient state `create_pip_requirement` reads: the two environment
variables, the interpreter path and version, the resolved `__file__`, and
the outcome the child `pip` process would produce. -/
structure PyEnv where
  virtual_env : Option String
  conda_default_env : Option String
  executable : String
  major : Nat
  minor : Nat
  file : String
  pip_freeze : PipResult
deriving DecidableEq

/-- The filesystem fragment the script touches: existing directories and
files (path, content), keyed by rendered path strings. -/
structure FS where
  dirs : List String
  files : List (String × String)
deriving DecidableEq

/-- Model of `Path.mkdir(parents=True, exist_ok=True)`: add every missing
ancestor directory (idempotent, never fails). -/
def FS.mkdirParents (fs : FS) (p : PyPath) : FS :=
  { fs with dirs := List.foldl (fun acc d => if d ∈ acc then acc else acc ++ [d]) fs.dirs (PyPath.ancestorsIncl p) }

/-- Model of `open(path, "w")` followed by a full write: the previous
content at the path (if any) is discarded wholesale. -/
def FS.writeFile (fs : FS) (path content : String) : FS :=
  { fs with files := (path, content) :: fs.files.filter (fun e => !(e.1 == path)) }

/-- Content of the file at a path, if present. -/
def FS.readFile (fs : FS) (path : String) : Option String :=
  (fs.files.find? (fun e => e.1 == path)).map (fun e => e.2)

/-- Lowercase hexadecimal digit (helper for `repr`'s escapes). -/
def hexDigit (n : Nat) : Char :=
  if n < 10 then Char.ofNat (48 + n) else Char.ofNat (87 + n)

/-- Two lowercase hexadecimal digits of a byte value below 256. -/
def hexByte (n : Nat) : String :=
  String.singleton (hexDigit (n / 16 % 16)) ++ String.singleton (hexDigit (n % 16))

/-- CPython `str.__repr__`'s escaping of one character, given the chosen
quote character: backslash and the quote character get a backslash, LF,
CR and TAB use their short escapes, the other C0 control characters and
DEL a `\xNN` escape; every remaining character is kept as-is.  (CPython
additionally escapes non-printable code points above ASCII; those
renderings are beyond what any theorem here evaluates.) -/
def pyCharEscape (quote c : Char) : String :=
  if c = '\\' then "\\\\"
  else if c = quote then "\\" ++ String.singleton quote
  else if c = '\n' then "\\n"
  else if c = '\r' then "\\r"
  else if c = '\t' then "\\t"
  else if c.toNat < 32 || c.toNat == 127 then "\\x" ++ hexByte c.toNat
  else String.singleton c

/-- Model of CPython `repr` for a string: single-quoted, switching to
double quotes when the string contains a single quote but no double
quote, with the escaping of `pyCharEscape`. -/
def pyStrRepr (s : String) : String :=
  let quote := if s.data.contains '\x27' && !(s.data.contains '"') then '"' else '\x27'
  String.singleton quote ++ String.join (s.data.map (pyCharEscape quote)) ++
    String.singleton quote

/-- Model of `repr` of a Python list of strings (as the `%s` of the
command list inside `CalledProcessError`'s message renders it). -/
def pyListRepr (xs : List String) : String :=
  "[" ++ strIntercalate ", " (xs.map pyStrRepr) ++ "]"

/-- The members of `signal.Signals` on Linux, named as CPython's enum
names them: values 1-31 plus `SIGRTMIN` (34) and `SIGRTMAX` (64).  For
any other value `signal.Signals(n)` raises `ValueError`. -/
def linuxSignalName : Nat → Option String
  | 1 => some "SIGHUP"
  | 2 => some "SIGINT"
  | 3 => some "SIGQUIT"
  | 4 => some "SIGILL"
  | 5 => some "SIGTRAP"
  | 6 => some "SIGABRT"
  | 7 => some "SIGBUS"
  | 8 => some "SIGFPE"
  | 9 => some "SIGKILL"
  | 10 => some "SIGUSR1"
  | 11 => some "SIGSEGV"
  | 12 => some "SIGUSR2"
  | 13 => some "SIGPIPE"
  | 14 => some "SIGALRM"
  | 15 => some "SIGTERM"
  | 16 => some "SIGSTKFLT"
  | 17 => some "SIGCHLD"
  | 18 => some "SIGCONT"
  | 19 => some "SIGSTOP"
  | 20 => some "SIGTSTP"
  | 21 => some "SIGTTIN"
  | 22 => some "SIGTTOU"
  | 23 => some "SIGURG"
  | 24 => some "SIGXCPU"
  | 25 => some "SIGXFSZ"
  | 26 => some "SIGVTALRM"
  | 27 => some "SIGPROF"
  | 28 => some "SIGWINCH"
  | 29 => some "SIGIO"
  | 30 => some "SIGPWR"
  | 31 => some "SIGSYS"
  | 34 => some "SIGRTMIN"
  | 64 => some "SIGRTMAX"
  | _ => none

/-- Model of `str(CalledProcessError)` from CPython's `subprocess.py`: for
a non-negative return code the message names the command and the exit
status; for a negative return code (the child died on a signal) it
renders `repr(signal.Signals(-returncode))`, e.g. `<Signals.SIGKILL: 9>`,
falling back to the unknown-signal wording when the number is not a
`Signals` member (Linux signal table).  In no branch does the message
include the captured stderr. -/
def calledProcessErrorMessage (cmdRepr : String) (returncode : Int) : String :=
  if returncode < 0 then
    match linuxSignalName (-returncode).toNat with
    | some nm =>
      "Command \x27" ++ cmdRepr ++ "\x27 died with <Signals." ++ nm ++ ": " ++
        toString (-returncode) ++ ">."
    | none =>
      "Command \x27" ++ cmdRepr ++ "\x27 died with unknown signal " ++
        toString (-returncode) ++ "."
  else
    "Command \x27" ++ cmdRepr ++ "\x27 returned non-zero exit status " ++
      toString returncode ++ "."

/-- One run-level result: the filesystem afterwards and the lines printed
to stdout. -/
structure RunResult where
  fs : FS
  printed : List String
deriving DecidableEq

/-- Model of `create_pip_requirement` (source lines 17-56).  The version
string, environment name, requirements directory and target file path are
built exactly as in the source; the directory is created before the
`try` block; on a successful `pip freeze` the processed listing is
written and a confirmation printed; on a `CalledProcessError` nothing is
written and the diagnostic `"Failed to generate requirements: " + str(e)`
is printed (the exception is not re-raised). -/
def create_pip_requirement (remove_versions : Bool) (env : PyEnv) (fs : FS) : RunResult :=
  let version := toString env.major ++ "." ++ toString env.minor
  let env_name := get_env_name env.virtual_env env.conda_default_env
  let script_path := parsePath env.file
  let parent_dir := script_path.parent
  let requirements_dir := parent_dir.child "requirements"
  let fs1 := fs.mkdirParents requirements_dir
  let filename := env_name ++ "-python-" ++ version ++ ".txt"
  let filepath := requirements_dir.child filename
  match env.pip_freeze with
  | .ok stdout _stderr =>
    let filtered_output := processOutput stdout remove_versions
    let fs2 := fs1.writeFile filepath.render filtered_output
    { fs := fs2, printed := ["Requirements saved to " ++ filepath.render] }
  | .err returncode _stdout _stderr =>
    { fs := fs1
      printed := ["Failed to generate requirements: " ++
        calledProcessErrorMessage
          (pyListRepr [env.executable, "-m", "pip", "freeze", "-l"]) returncode] }

/-- The `if __name__ == "__main__"` entry point calls
`create_pip_requirement()` with no arguments, so the `remove_versions`
parameter takes its declared default `True`. -/
def create_pip_requirement_main (env : PyEnv) (fs : FS) : RunResult :=
  create_pip_requirement true env fs

/-- The rendered target file path a run with ambient state `env` uses:
`<parent of script>/requirements/<env name>-python-<major>.<minor>.txt`. -/
def targetPath (env : PyEnv) : String :=
  (((parsePath env.file).parent.child "requirements").child
    (get_env_name env.virtual_env env.conda_default_env ++ "-python-" ++
      (toString env.major ++ "." ++ toString env.minor) ++ ".txt")).render

/-! ### Character-level lemmas about the splitters and joiners -/

theorem consHead_ne_nil (c : Char) (L : List (List Char)) : consHead c L ≠ [] := by
  cases L <;> simp [consHead]

theorem splitBreaks_noBreak :
    ∀ l : List Char, ∀ x ∈ splitBreaks l, ∀ c ∈ x, isLineBreakChar c = false := by
  intro l
  induction l with
  | nil => intro x hx; simp [splitBreaks] at hx
  | cons a rest ih =>
    intro x hx c hc
    by_cases ha : isLineBreakChar a = true
    · rw [splitBreaks, if_pos ha] at hx
      rcases List.mem_cons.mp hx with rfl | hx
      · exact absurd hc (List.not_mem_nil c)
      · exact ih x hx c hc
    · rw [splitBreaks, if_neg ha] at hx
      rcases hy : splitBreaks rest with _ | ⟨y, ys⟩
      · rw [hy] at hx
        simp only [consHead, List.mem_singleton] at hx
        subst hx
        have hca : c = a := by simpa using hc
        subst hca
        simpa using ha
      · rw [hy] at hx
        simp only [consHead] at hx
        rcases List.mem_cons.mp hx with rfl | hx2
        · rcases List.mem_cons.mp hc with rfl | hcy
          · simpa using ha
          · exact ih y (by rw [hy]; exact List.mem_cons_self y ys) c hcy
        · exact ih x (by rw [hy]; exact List.mem_cons.mpr (Or.inr hx2)) c hc

theorem splitBreaks_append_nl (x rest : List Char)
    (hx : ∀ c ∈ x, isLineBreakChar c = false) :
    splitBreaks (x ++ '\n' :: rest) = x :: splitBreaks rest := by
  induction x with
  | nil =>
    rw [List.nil_append, splitBreaks, if_pos (by decide)]
  | cons a x ih =>
    have ha : isLineBreakChar a = false := hx a (List.mem_cons_self a x)
    rw [List.cons_append, splitBreaks, if_neg (by simp [ha])]
    rw [ih (fun c hc => hx c (List.mem_cons.mpr (Or.inr hc)))]
    rfl

theorem splitBreaks_single (x : List Char) (hne : x ≠ [])
    (hx : ∀ c ∈ x, isLineBreakChar c = false) :
    splitBreaks x = [x] := by
  induction x with
  | nil => exact absurd rfl hne
  | cons a x ih =>
    have ha : isLineBreakChar a = false := hx a (List.mem_cons_self a x)
    rw [splitBreaks, if_neg (by simp [ha])]
    cases x with
    | nil => rfl
    | cons b x' =>
      rw [ih (by simp) (fun c hc => hx c (List.mem_cons.mpr (Or.inr hc)))]
      rfl

theorem mem_joinNL (L : List (List Char)) (c : Char) (hc : c ∈ joinNL L) :
    c = '\n' ∨ ∃ x ∈ L, c ∈ x := by
  induction L with
  | nil => simp [joinNL] at hc
  | cons l ls ih =>
    cases ls with
    | nil =>
      right
      exact ⟨l, List.mem_cons_self l [], by simpa [joinNL] using hc⟩
    | cons l2 ls2 =>
      rw [joinNL] at hc
      rcases List.mem_append.mp hc with h | h
      · exact Or.inr ⟨l, List.mem_cons_self _ _, h⟩
      · rcases List.mem_cons.mp h with rfl | h2
        · exact Or.inl rfl
        · rcases ih h2 with h3 | ⟨x, hx, hcx⟩
          · exact Or.inl h3
          · exact Or.inr ⟨x, List.mem_cons.mpr (Or.inr hx), hcx⟩
      all_goals simp

theorem normNewlines_id (l : List Char) (h : ∀ c ∈ l, c ≠ '\r') :
    normNewlines l = l := by
  induction l using normNewlines.induct with
  | case1 => rfl
  | case2 c => rfl
  | case3 c d rest hcd ih =>
    exact absurd hcd.1 (h c (List.mem_cons_self _ _))
  | case4 c d rest hcd ih =>
    rw [normNewlines, if_neg hcd, ih (fun e he => h e (List.mem_cons.mpr (Or.inr he)))]

theorem splitBreaks_joinNL (L : List (List Char))
    (h : ∀ x ∈ L, ∀ c ∈ x, isLineBreakChar c = false) :
    splitBreaks (joinNL L) = stripTrailOne L := by
  induction L with
  | nil => rfl
  | cons l ls ih =>
    cases ls with
    | nil =>
      show splitBreaks (joinNL [l]) = stripTrailOne [l]
      rw [joinNL, stripTrailOne]
      by_cases hl : l = []
      · subst hl; rfl
      · rw [if_neg hl, splitBreaks_single l hl (h l (List.mem_cons_self _ _))]
    | cons l2 ls2 =>
      rw [joinNL, stripTrailOne,
        splitBreaks_append_nl l (joinNL (l2 :: ls2)) (h l (List.mem_cons_self _ _)),
        ih (fun x hx => h x (List.mem_cons.mpr (Or.inr hx)))]
      all_goals simp

theorem splitlinesChars_joinNL (L : List (List Char))
    (h : ∀ x ∈ L, ∀ c ∈ x, isLineBreakChar c = false) :
    splitlinesChars (joinNL L) = stripTrailOne L := by
  rw [splitlinesChars, normNewlines_id, splitBreaks_joinNL L h]
  intro c hc
  rcases mem_joinNL L c hc with rfl | ⟨x, hx, hcx⟩
  · decide
  · intro hcr
    subst hcr
    have := h x hx '\r' hcx
    simp [isLineBreakChar] at this

theorem mem_stripTrailOne (L : List (List Char)) (x : List Char)
    (hx : x ∈ stripTrailOne L) : x ∈ L := by
  induction L with
  | nil => simp [stripTrailOne] at hx
  | cons l ls ih =>
    cases ls with
    | nil =>
      rw [stripTrailOne] at hx
      by_cases hl : l = []
      · rw [if_pos hl] at hx; exact absurd hx (List.not_mem_nil x)
      · rw [if_neg hl] at hx; exact hx
    | cons l2 ls2 =>
      rw [stripTrailOne] at hx
      rcases List.mem_cons.mp hx with rfl | hx2
      · exact List.mem_cons_self _ _
      · exact List.mem_cons.mpr (Or.inr (ih hx2))
      all_goals simp

/-! ### String-level lemmas -/

theorem data_eq_nil {s : String} (h : s.data = []) : s = "" :=
  String.ext h

theorem stripTrailOne_map_data (L : List String) :
    stripTrailOne (L.map String.data) = (stripTrailStr L).map String.data := by
  induction L with
  | nil => rfl
  | cons s ss ih =>
    cases ss with
    | nil =>
      rw [List.map_cons, List.map_nil, stripTrailOne, stripTrailStr]
      by_cases hs : s = ""
      · subst hs; simp
      · have hd : s.data ≠ [] := fun h => hs (data_eq_nil h)
        rw [if_neg hd, if_neg hs]
        simp
    | cons s2 ss2 =>
      rw [List.map_cons, List.map_cons, stripTrailOne, stripTrailStr, List.map_cons,
        ← List.map_cons String.data s2 ss2, ih]
      all_goals simp

theorem mem_stripTrailStr (L : List String) (x : String)
    (hx : x ∈ stripTrailStr L) : x ∈ L := by
  induction L with
  | nil => simp [stripTrailStr] at hx
  | cons s ss ih =>
    cases ss with
    | nil =>
      rw [stripTrailStr] at hx
      by_cases hs : s = ""
      · rw [if_pos hs] at hx; exact absurd hx (List.not_mem_nil x)
      · rw [if_neg hs] at hx; exact hx
    | cons s2 ss2 =>
      rw [stripTrailStr] at hx
      rcases List.mem_cons.mp hx with rfl | hx2
      · exact List.mem_cons_self _ _
      · exact List.mem_cons.mpr (Or.inr (ih hx2))
      all_goals simp

theorem pySplitlines_noBreak (s : String) :
    ∀ line ∈ pySplitlines s, ∀ c ∈ line.data, isLineBreakChar c = false := by
  intro line hline c hc
  rcases List.mem_map.mp hline with ⟨x, hx, rfl⟩
  exact splitBreaks_noBreak (normNewlines s.data) x hx c hc

theorem map_mk_data (X : List String) :
    X.map (fun s => ((⟨s.data⟩ : String))) = X := by
  induction X with
  | nil => rfl
  | cons s ss ih => rw [List.map_cons, ih]

theorem pySplitlines_pyJoinLines (lines : List String)
    (h : ∀ s ∈ lines, ∀ c ∈ s.data, isLineBreakChar c = false) :
    pySplitlines (pyJoinLines lines) = stripTrailStr lines := by
  have hL : ∀ x ∈ lines.map String.data, ∀ c ∈ x, isLineBreakChar c = false := by
    intro x hx c hc
    rcases List.mem_map.mp hx with ⟨s, hs, rfl⟩
    exact h s hs c hc
  show (splitlinesChars (joinNL (lines.map String.data))).map (fun l => (⟨l⟩ : String)) = _
  rw [splitlinesChars_joinNL _ hL, stripTrailOne_map_data, List.map_map]
  exact map_mk_data (stripTrailStr lines)

/-! ### Lemmas about `startsSeq` and `splitEqEq` -/

theorem startsSeq_append (p : List Char) :
    ∀ l t : List Char, startsSeq p l = true → startsSeq p (l ++ t) = true := by
  induction p with
  | nil => intro l t _; rfl
  | cons a p ih =>
    intro l t h
    cases l with
    | nil => simp [startsSeq] at h
    | cons b l' =>
      rw [List.cons_append]
      simp only [startsSeq, Bool.and_eq_true] at h ⊢
      exact ⟨h.1, ih l' t h.2⟩

theorem splitEqEq_ne_nil (l : List Char) : splitEqEq l ≠ [] := by
  induction l using splitEqEq.induct with
  | case1 => simp [splitEqEq]
  | case2 c => simp [splitEqEq]
  | case3 c d rest h ih => rw [splitEqEq, if_pos h]; simp
  | case4 c d rest h ih => rw [splitEqEq, if_neg h]; exact consHead_ne_nil _ _

theorem splitEqEq_headD_append (l : List Char) :
    ∃ t, (splitEqEq l).headD [] ++ t = l := by
  induction l using splitEqEq.induct with
  | case1 => exact ⟨[], rfl⟩
  | case2 c => exact ⟨[], rfl⟩
  | case3 c d rest h ih =>
    rw [splitEqEq, if_pos h]
    exact ⟨c :: d :: rest, rfl⟩
  | case4 c d rest h ih =>
    rw [splitEqEq, if_neg h]
    rcases hS : splitEqEq (d :: rest) with _ | ⟨y, ys⟩
    · exact absurd hS (splitEqEq_ne_nil _)
    · rcases ih with ⟨t, ht⟩
      rw [hS] at ht
      simp only [List.headD] at ht
      refine ⟨t, ?_⟩
      simp only [consHead, List.headD]
      rw [List.cons_append, ht]

theorem noEqEq_splitEqEq (l : List Char) (h : containsSeq ['=', '='] l = false) :
    splitEqEq l = [l] := by
  induction l using splitEqEq.induct with
  | case1 => rfl
  | case2 c => rfl
  | case3 c d rest hcd ih =>
    exfalso
    rcases hcd with ⟨rfl, rfl⟩
    rw [containsSeq] at h
    simp [startsSeq] at h
  | case4 c d rest hcd ih =>
    rw [containsSeq, Bool.or_eq_false_iff] at h
    rw [splitEqEq, if_neg hcd, ih h.2]
    rfl

theorem splitEqEq_before_sep (pre : List Char) :
    ∀ post : List Char, containsSeq ['=', '='] (pre ++ ['=']) = false →
      (splitEqEq (pre ++ '=' :: '=' :: post)).headD [] = pre := by
  induction pre with
  | nil =>
    intro post _
    rw [List.nil_append, splitEqEq, if_pos ⟨rfl, rfl⟩]
    rfl
  | cons c pre' ih =>
    intro post h
    rw [List.cons_append, containsSeq, Bool.or_eq_false_iff] at h
    obtain ⟨h1, h2⟩ := h
    rw [List.cons_append]
    cases pre' with
    | nil =>
      have hc : c ≠ '=' := by
        intro hceq
        subst hceq
        simp [startsSeq] at h1
      rw [List.nil_append, splitEqEq, if_neg (fun hh => hc hh.1), splitEqEq,
        if_pos ⟨rfl, rfl⟩]
      simp [consHead]
    | cons d pre'' =>
      have hcd : ¬(c = '=' ∧ d = '=') := by
        rintro ⟨rfl, rfl⟩
        simp [startsSeq, List.cons_append] at h1
      rw [List.cons_append, splitEqEq, if_neg hcd]
      have ih' := ih post h2
      rcases hS : splitEqEq ((d :: pre'') ++ '=' :: '=' :: post) with _ | ⟨y, ys⟩
      · exact absurd hS (splitEqEq_ne_nil _)
      · rw [hS] at ih'
        simp only [List.headD] at ih'
        rw [List.cons_append] at hS
        rw [hS]
        simp only [consHead, List.headD]
        rw [ih']

/-! ### Lemmas about paths and rendering -/

theorem strIntercalate_cons (sep a : String) (L : List String) (h : L ≠ []) :
    strIntercalate sep (a :: L) = a ++ sep ++ strIntercalate sep L := by
  cases L with
  | nil => exact absurd rfl h
  | cons b l => rfl

theorem strIntercalate_append_one (sep : String) (l : List String) (x : String)
    (h : l ≠ []) :
    strIntercalate sep (l ++ [x]) = strIntercalate sep l ++ sep ++ x := by
  induction l with
  | nil => exact absurd rfl h
  | cons a l ih =>
    cases l with
    | nil => simp [strIntercalate]
    | cons b l' =>
      rw [List.cons_append, strIntercalate_cons sep a ((b :: l') ++ [x]) (by simp),
        ih (by simp), strIntercalate_cons sep a (b :: l') (by simp)]
      simp [String.append_assoc]

theorem strIntercalate_slash_data_ne_nil (parts : List String) (hne : parts ≠ [])
    (hp : ∀ q ∈ parts, q ≠ "") :
    (strIntercalate "/" parts).data ≠ [] := by
  cases parts with
  | nil => exact absurd rfl hne
  | cons q l =>
    cases l with
    | nil =>
      intro hd
      exact hp q (List.mem_cons_self _ _) (data_eq_nil hd)
    | cons r l' =>
      rw [strIntercalate_cons "/" q (r :: l') (by simp)]
      simp [String.data_append]

theorem splitOnChar_no_sep (sep : Char) (l : List Char) :
    ∀ x ∈ splitOnChar sep l, sep ∉ x := by
  induction l with
  | nil =>
    intro x hx
    simp [splitOnChar] at hx
    subst hx
    simp
  | cons c rest ih =>
    intro x hx
    by_cases hc : (c == sep) = true
    · rw [splitOnChar, if_pos hc] at hx
      rcases List.mem_cons.mp hx with rfl | hx
      · simp
      · exact ih x hx
    · have hcne : c ≠ sep := by simpa using hc
      rw [splitOnChar, if_neg hc] at hx
      rcases hS : splitOnChar sep rest with _ | ⟨y, ys⟩
      · rw [hS] at hx
        simp only [consHead, List.mem_singleton] at hx
        subst hx
        intro hmem
        have : sep = c := by simpa using hmem
        exact hcne this.symm
      · rw [hS] at hx
        simp only [consHead] at hx
        rcases List.mem_cons.mp hx with rfl | hx2
        · intro hmem
          rcases List.mem_cons.mp hmem with h1 | h2
          · exact hcne h1.symm
          · exact ih y (by rw [hS]; exact List.mem_cons_self _ _) h2
        · exact ih x (by rw [hS]; exact List.mem_cons.mpr (Or.inr hx2))

theorem parsePath_parts_good (s : String) :
    ∀ q ∈ (parsePath s).parts, q ≠ "" ∧ q ≠ "." ∧ '/' ∉ q.data := by
  intro q hq
  simp only [parsePath] at hq
  rcases List.mem_filter.mp hq with ⟨hmem, hpred⟩
  simp only [Bool.and_eq_true, Bool.not_eq_true', beq_eq_false_iff_ne] at hpred
  rcases List.mem_map.mp hmem with ⟨l, hl, rfl⟩
  exact ⟨hpred.1, hpred.2, splitOnChar_no_sep '/' s.data l hl⟩

theorem render_append_one (p : PyPath) (seg : String)
    (hp : ∀ q ∈ p.parts, q ≠ "" ∧ q ≠ "." ∧ '/' ∉ q.data) :
    PyPath.render { absolute := p.absolute, parts := p.parts ++ [seg] } =
      joinSeg p.render seg := by
  rcases p with ⟨abs, parts⟩
  cases abs with
  | true =>
    cases parts with
    | nil =>
      simp [PyPath.render, joinSeg, strIntercalate]
    | cons q parts' =>
      have hne : (strIntercalate "/" (q :: parts')).data ≠ [] :=
        strIntercalate_slash_data_ne_nil _ (by simp)
          (fun r hr => (hp r hr).1)
      have hroot : ("/" ++ strIntercalate "/" (q :: parts') : String) ≠ "/" := by
        intro h
        have hd := congrArg String.data h
        simp [String.data_append] at hd
        exact hne hd
      have hdot : ("/" ++ strIntercalate "/" (q :: parts') : String) ≠ "." := by
        intro h
        have hd := congrArg String.data h
        simp [String.data_append] at hd
      simp only [PyPath.render, if_pos]
      rw [strIntercalate_append_one "/" (q :: parts') seg (by simp)]
      rw [joinSeg, if_neg hroot, if_neg hdot]
      simp [String.append_assoc]
  | false =>
    cases parts with
    | nil =>
      simp [PyPath.render, joinSeg, strIntercalate]
    | cons q parts' =>
      have hq := hp q (List.mem_cons_self _ _)
      have hslash : (strIntercalate "/" (q :: parts') : String) ≠ "/" := by
        cases parts' with
        | nil =>
          intro h
          rw [strIntercalate] at h
          subst h
          exact hq.2.2 (by simp)
        | cons r parts'' =>
          intro h
          have hd := congrArg String.data h
          rw [strIntercalate_cons "/" q (r :: parts'') (by simp)] at hd
          simp only [String.data_append] at hd
          cases hq0 : q.data with
          | nil => exact hq.1 (data_eq_nil hq0)
          | cons c cs => rw [hq0] at hd; simp at hd
      have hdot2 : (strIntercalate "/" (q :: parts') : String) ≠ "." := by
        cases parts' with
        | nil =>
          intro h
          rw [strIntercalate] at h
          exact hq.2.1 h
        | cons r parts'' =>
          intro h
          have hd := congrArg String.data h
          rw [strIntercalate_cons "/" q (r :: parts'') (by simp)] at hd
          simp only [String.data_append] at hd
          cases hq0 : q.data with
          | nil => exact hq.1 (data_eq_nil hq0)
          | cons c cs => rw [hq0] at hd; simp at hd
      simp only [PyPath.render]
      rw [if_neg (by simp : ¬(false = true)), if_neg (by simp : ¬(false = true))]
      rw [if_neg (by simp : ¬(q :: parts' ++ [seg] = ([] : List String))),
        if_neg (by simp : ¬(q :: parts' = ([] : List String)))]
      rw [strIntercalate_append_one "/" (q :: parts') seg (by simp)]
      rw [joinSeg, if_neg hslash, if_neg hdot2]

theorem splitOnChar_no_occur (sep : Char) (l : List Char) (h : sep ∉ l) :
    splitOnChar sep l = [l] := by
  induction l with
  | nil => rfl
  | cons c rest ih =>
    have hc : ¬((c == sep) = true) := by
      simp only [beq_iff_eq]
      intro h0
      subst h0
      exact h (List.mem_cons_self _ _)
    rw [splitOnChar, if_neg hc, ih (fun hm => h (List.mem_cons.mpr (Or.inr hm)))]
    rfl

theorem parsePath_single (s : String) (h1 : '/' ∉ s.data) (h2 : s ≠ "")
    (h3 : s ≠ ".") :
    parsePath s = { absolute := false, parts := [s] } := by
  have habs : pyStartsWith s "/" = false := by
    cases hs : s.data with
    | nil => exact absurd (data_eq_nil hs) h2
    | cons c cs =>
      have hc : c ≠ '/' := by
        intro h0
        exact h1 (by rw [hs, h0]; exact List.mem_cons_self _ _)
      rw [pyStartsWith, hs]
      show startsSeq ['/'] (c :: cs) = false
      simp [startsSeq]
      exact fun h0 => hc h0.symm
  have hparts : splitOnChar '/' s.data = [s.data] := splitOnChar_no_occur '/' s.data h1
  rw [parsePath, habs, hparts]
  simp [h2, h3]

theorem child_requirements (p : PyPath) :
    p.child "requirements" = { p with parts := p.parts ++ ["requirements"] } := by
  have h : parsePath "requirements" =
      { absolute := false, parts := ["requirements"] } := by decide
  rw [PyPath.child, h, if_neg (by simp)]

theorem render_child_single (p : PyPath) (seg : String)
    (hp : ∀ q ∈ p.parts, q ≠ "" ∧ q ≠ "." ∧ '/' ∉ q.data)
    (hseg : parsePath seg = { absolute := false, parts := [seg] }) :
    (p.child seg).render = joinSeg p.render seg := by
  rw [PyPath.child, hseg, if_neg (by simp)]
  exact render_append_one p seg hp

/-! ### Lemmas about the filesystem model -/

theorem mem_foldl_insert (L : List String) (acc : List String) (d : String)
    (h : d ∈ acc ∨ d ∈ L) :
    d ∈ List.foldl (fun a x => if x ∈ a then a else a ++ [x]) acc L := by
  induction L generalizing acc with
  | nil =>
    rcases h with h | h
    · exact h
    · simp at h
  | cons x L ih =>
    rw [List.foldl_cons]
    apply ih
    rcases h with h | h
    · left
      by_cases hx : x ∈ acc
      · rw [if_pos hx]; exact h
      · rw [if_neg hx]; exact List.mem_append.mpr (Or.inl h)
    · rcases List.mem_cons.mp h with rfl | h2
      · left
        by_cases hx : d ∈ acc
        · rw [if_pos hx]; exact hx
        · rw [if_neg hx]; exact List.mem_append.mpr (Or.inr (List.mem_singleton.mpr rfl))
      · right; exact h2

theorem render_mem_ancestorsIncl (p : PyPath) (h : p.parts ≠ []) :
    p.render ∈ p.ancestorsIncl := by
  rw [PyPath.ancestorsIncl]
  apply List.mem_map.mpr
  refine ⟨p.parts.length - 1, List.mem_range.mpr (Nat.sub_lt (List.length_pos.mpr h) Nat.one_pos), ?_⟩
  rw [Nat.sub_add_cancel (List.length_pos.mpr h), List.take_length]

theorem mkdirParents_mem (fs : FS) (p : PyPath) (h : p.parts ≠ []) :
    p.render ∈ (fs.mkdirParents p).dirs :=
  mem_foldl_insert _ _ _ (Or.inr (render_mem_ancestorsIncl p h))

theorem mkdirParents_mem_of_mem (fs : FS) (p : PyPath) (d : String) (h : d ∈ fs.dirs) :
    d ∈ (fs.mkdirParents p).dirs :=
  mem_foldl_insert _ _ _ (Or.inl h)

theorem mkdirParents_files (fs : FS) (p : PyPath) :
    (fs.mkdirParents p).files = fs.files := rfl

theorem readFile_writeFile (fs : FS) (pth c : String) :
    (fs.writeFile pth c).readFile pth = some c := by
  simp [FS.readFile, FS.writeFile, List.find?_cons]

/-! ### Run-level helper lemmas -/

theorem run_dirs_requirements (b : Bool) (env : PyEnv) (fs : FS) :
    ((parsePath env.file).parent.child "requirements").render ∈
      (create_pip_requirement b env fs).fs.dirs := by
  have h : ((parsePath env.file).parent.child "requirements").parts ≠ [] := by
    rw [child_requirements]
    simp
  rcases hpf : env.pip_freeze with ⟨so, se⟩ | ⟨rc, so, se⟩
  · simp only [create_pip_requirement, hpf]
    exact mkdirParents_mem fs _ h
  · simp only [create_pip_requirement, hpf]
    exact mkdirParents_mem fs _ h

theorem run_dirs_mono (b : Bool) (env : PyEnv) (fs : FS) (d : String) (hd : d ∈ fs.dirs) :
    d ∈ (create_pip_requirement b env fs).fs.dirs := by
  rcases hpf : env.pip_freeze with ⟨so, se⟩ | ⟨rc, so, se⟩
  · simp only [create_pip_requirement, hpf]
    exact mkdirParents_mem_of_mem fs _ d hd
  · simp only [create_pip_requirement, hpf]
    exact mkdirParents_mem_of_mem fs _ d hd

theorem run_ok_readFile (b : Bool) (env : PyEnv) (fs : FS) (so se : String)
    (h : env.pip_freeze = .ok so se) :
    (create_pip_requirement b env fs).fs.readFile (targetPath env) =
      some (processOutput so b) := by
  simp only [create_pip_requirement, h]
  exact readFile_writeFile _ _ _

theorem run_err_effects (b : Bool) (env : PyEnv) (fs : FS) (rc : Int) (so se : String)
    (h : env.pip_freeze = .err rc so se) :
    (create_pip_requirement b env fs).fs.files = fs.files ∧
    (create_pip_requirement b env fs).printed =
      ["Failed to generate requirements: " ++
        calledProcessErrorMessage
          (pyListRepr [env.executable, "-m", "pip", "freeze", "-l"]) rc] := by
  simp [create_pip_requirement, h, mkdirParents_files]

/-! ### Structure of the processed listing -/

theorem processOutput_false_eq (raw : String) :
    processOutput raw false =
      pyJoinLines ((pySplitlines raw).filter (fun line => !(pyStartsWith line "-e"))) := rfl

theorem processOutput_false_lines (raw : String) :
    ∀ line ∈ pySplitlines (processOutput raw false),
      line ∈ pySplitlines raw ∧ pyStartsWith line "-e" = false := by
  intro line hline
  rw [processOutput_false_eq,
    pySplitlines_pyJoinLines _
      (fun s hs => pySplitlines_noBreak raw s (List.mem_filter.mp hs).1)] at hline
  have hmem := mem_stripTrailStr _ line hline
  rcases List.mem_filter.mp hmem with ⟨h1, h2⟩
  exact ⟨h1, by simpa using h2⟩

theorem processOutput_true_lines (raw : String) :
    ∀ line ∈ pySplitlines (processOutput raw true),
      ∃ orig ∈ pySplitlines raw, pyStartsWith orig "-e" = false ∧
        line = pyStripVersion orig := by
  intro line hline
  have hFnb : ∀ s ∈ (pySplitlines raw).filter (fun l => !(pyStartsWith l "-e")),
      ∀ c ∈ s.data, isLineBreakChar c = false := by
    intro s hs
    exact pySplitlines_noBreak raw s (List.mem_filter.mp hs).1
  have hpo : processOutput raw true =
      pyJoinLines ((pySplitlines (pyJoinLines ((pySplitlines raw).filter
        (fun l => !(pyStartsWith l "-e"))))).map pyStripVersion) := rfl
  rw [hpo, pySplitlines_pyJoinLines _ hFnb] at hline
  have hGnb : ∀ s ∈ (stripTrailStr ((pySplitlines raw).filter
        (fun l => !(pyStartsWith l "-e")))).map pyStripVersion,
      ∀ c ∈ s.data, isLineBreakChar c = false := by
    intro s hs c hc
    rcases List.mem_map.mp hs with ⟨f, hf, rfl⟩
    have hfF := mem_stripTrailStr _ f hf
    rcases splitEqEq_headD_append f.data with ⟨t, ht⟩
    have hcf : c ∈ f.data := by
      rw [← ht]
      exact List.mem_append.mpr (Or.inl hc)
    exact hFnb f hfF c hcf
  rw [pySplitlines_pyJoinLines _ hGnb] at hline
  have hlineG := mem_stripTrailStr _ line hline
  rcases List.mem_map.mp hlineG with ⟨f, hf, rfl⟩
  have hfF := mem_stripTrailStr _ f hf
  rcases List.mem_filter.mp hfF with ⟨hmem, hpred⟩
  exact ⟨f, hmem, by simpa using hpred, rfl⟩

theorem pyStartsWith_stripVersion (orig : String) (h : pyStartsWith orig "-e" = false) :
    pyStartsWith (pyStripVersion orig) "-e" = false := by
  by_contra hc
  rw [Bool.not_eq_false] at hc
  rcases splitEqEq_headD_append orig.data with ⟨t, ht⟩
  have hall : startsSeq ("-e".data) orig.data = true := by
    rw [← ht]
    exact startsSeq_append _ _ t hc
  rw [pyStartsWith] at h
  rw [h] at hall
  exact absurd hall (by simp)

/-! ### The claims -/

/-- C1: the processed listing never contains a line that starts with the
editable-install marker `-e`; with version-stripping disabled the output
is exactly the newline-join of the non-`-e` input lines kept verbatim;
with stripping enabled every output line is the part before `==` of some
non-`-e` input line; and on the concrete listing with one editable line
and two `name==version` lines the output is exactly the two normal
entries, in order, stripped or verbatim according to the switch. -/
theorem C1_editable_filter_and_strip (raw : String) (b : Bool) :
    (∀ line ∈ pySplitlines (processOutput raw b), pyStartsWith line "-e" = false) ∧
    (processOutput raw false =
      pyJoinLines ((pySplitlines raw).filter (fun line => !(pyStartsWith line "-e")))) ∧
    (∀ line ∈ pySplitlines (processOutput raw true),
      ∃ orig ∈ pySplitlines raw, pyStartsWith orig "-e" = false ∧
        line = pyStripVersion orig) ∧
    processOutput "-e /src/pkg\nfoo==1.0\nbar==2.0" true = "foo\nbar" ∧
    processOutput "-e /src/pkg\nfoo==1.0\nbar==2.0" false = "foo==1.0\nbar==2.0" := by
  refine ⟨?_, processOutput_false_eq raw, processOutput_true_lines raw,
    by decide, by decide⟩
  intro line hline
  cases b with
  | false => exact (processOutput_false_lines raw line hline).2
  | true =>
    rcases processOutput_true_lines raw line hline with ⟨orig, _, horig, rfl⟩
    exact pyStartsWith_stripVersion orig horig

/-- Witness for C1: the first line of the processed concrete listing does
not start with `-e`. -/
theorem C1_editable_filter_and_strip_witness :
    pyStartsWith "foo" "-e" = false :=
  (C1_editable_filter_and_strip "-e /src/pkg\nfoo==1.0\nbar==2.0" true).1 "foo" (by decide)

/-- C2 fails as stated: on a failing `pip freeze` the printed diagnostic
is `"Failed to generate requirements: " + str(CalledProcessError)`, and
that message names the command and the exit status but does not contain
the captured stderr text. -/
theorem C2_stderr_not_in_diagnostic :
    ((create_pip_requirement true
      { virtual_env := none, conda_default_env := none,
        executable := "/usr/bin/python3", major := 3, minor := 11,
        file := "/home/u/proj/tool.py",
        pip_freeze := PipResult.err 1 "" "No matching distribution found for torch" }
      { dirs := [], files := [] }).printed.all
      (fun line => !(strContains line "No matching distribution found for torch"))) = true := by
  decide

/-- C2 (amended): if the child process exits non-zero, no file is created
or overwritten (the file table, and in particular the target path, is
untouched), the exception is caught and not re-raised (the run returns
normally), and the one-line diagnostic printed is the exception's own
message, which carries the command and the exit status — not the captured
stderr. -/
theorem C2_failure_effects (b : Bool) (env : PyEnv) (fs : FS) (rc : Int)
    (so se : String) (h : env.pip_freeze = .err rc so se) :
    (create_pip_requirement b env fs).fs.files = fs.files ∧
    (create_pip_requirement b env fs).fs.readFile (targetPath env) =
      fs.readFile (targetPath env) ∧
    (create_pip_requirement b env fs).printed =
      ["Failed to generate requirements: " ++
        calledProcessErrorMessage
          (pyListRepr [env.executable, "-m", "pip", "freeze", "-l"]) rc] := by
  obtain ⟨h1, h2⟩ := run_err_effects b env fs rc so se h
  refine ⟨h1, ?_, h2⟩
  simp only [FS.readFile, h1]

/-- Witness for C2 (amended): concrete failing run leaves the file table
empty. -/
theorem C2_failure_effects_witness :
    (create_pip_requirement true
      { virtual_env := none, conda_default_env := none,
        executable := "/usr/bin/python3", major := 3, minor := 11,
        file := "/home/u/proj/tool.py",
        pip_freeze := PipResult.err 1 "" "boom" }
      { dirs := [], files := [] }).fs.files = [] :=
  (C2_failure_effects true
    { virtual_env := none, conda_default_env := none,
      executable := "/usr/bin/python3", major := 3, minor := 11,
      file := "/home/u/proj/tool.py",
      pip_freeze := PipResult.err 1 "" "boom" }
    { dirs := [], files := [] } 1 "" "boom" rfl).1

/-- C3 fails as stated for the empty string: with `VIRTUAL_ENV` set to
`""` the resolver does not return the final path segment of `""` (which
is `""`), it falls through and returns `"global"`. -/
theorem C3_counterexample_empty_venv :
    get_env_name (some "") none ≠ (parsePath "").name := by decide

/-- C3 (amended): whenever `VIRTUAL_ENV` is set to a non-empty value the
identity is its final path segment; when `VIRTUAL_ENV` is unset or empty
and `CONDA_DEFAULT_ENV` is set to a non-empty value the identity is that
raw value; when both are unset or empty the identity is `"global"`. -/
theorem C3_resolution_amended (venv conda : Option String) :
    (∀ v, venv = some v → v ≠ "" → get_env_name venv conda = (parsePath v).name) ∧
    ((venv = none ∨ venv = some "") →
      ∀ c, conda = some c → c ≠ "" → get_env_name venv conda = c) ∧
    ((venv = none ∨ venv = some "") → (conda = none ∨ conda = some "") →
      get_env_name venv conda = "global") := by
  refine ⟨?_, ?_, ?_⟩
  · rintro v rfl hv
    rw [get_env_name, if_pos (by simp [optTruthy, hv])]
    rfl
  · rintro hv c rfl hc
    have h1 : optTruthy venv = false := by
      rcases hv with rfl | rfl <;> simp [optTruthy]
    rw [get_env_name, if_neg (by simp [h1]), if_pos (by simp [optTruthy, hc])]
    rfl
  · intro hv hc
    have h1 : optTruthy venv = false := by
      rcases hv with rfl | rfl <;> simp [optTruthy]
    have h2 : optTruthy conda = false := by
      rcases hc with rfl | rfl <;> simp [optTruthy]
    rw [get_env_name, if_neg (by simp [h1]), if_neg (by simp [h2])]

/-- Witness for C3 (amended): a concrete virtual-environment path
resolves to its final segment. -/
theorem C3_resolution_amended_witness :
    get_env_name (some "/opt/venvs/myenv") none = (parsePath "/opt/venvs/myenv").name :=
  (C3_resolution_amended (some "/opt/venvs/myenv") none).1 "/opt/venvs/myenv" rfl (by decide)

/-- C4 fails as stated: the output path is built with pathlib's `/`
operator, and when the environment identity begins with a slash (a
prefix-activated conda environment puts the absolute prefix in
`CONDA_DEFAULT_ENV`, which `get_env_name` returns verbatim) the file name
is an absolute path that anchors the result, so the program's output path
is not `<script-parent>/requirements/<env>-python-<M>.<m>.txt`. -/
theorem C4_absolute_identity_counterexample :
    targetPath
      { virtual_env := none, conda_default_env := some "/opt/envs/dev",
        executable := "/usr/bin/python3", major := 3, minor := 11,
        file := "/home/u/proj/tool.py", pip_freeze := PipResult.ok "" "" } =
      "/opt/envs/dev-python-3.11.txt" ∧
    targetPath
      { virtual_env := none, conda_default_env := some "/opt/envs/dev",
        executable := "/usr/bin/python3", major := 3, minor := 11,
        file := "/home/u/proj/tool.py", pip_freeze := PipResult.ok "" "" } ≠
      joinSeg (joinSeg (parsePath "/home/u/proj/tool.py").parent.render "requirements")
        (get_env_name none (some "/opt/envs/dev") ++ "-python-" ++
          (toString 3 ++ "." ++ toString 11) ++ ".txt") := by
  exact ⟨by decide, by decide⟩

/-- C4 (amended): whenever the constructed file name
`<env>-python-<major>.<minor>.txt` contains no path separator (so it is a
single relative segment — the identity does not begin with or contain a
slash), the output file path equals the path join of the script's parent
directory, the fixed `requirements` segment, and that file name; the
`requirements` directory is among the directories present after any run
(created if absent), existing directories are preserved (creation is not
an error when the directory already exists), and the concrete example
from the spec renders as
`/home/u/proj/requirements/myenv-python-3.11.txt`. -/
theorem C4_output_path_amended (b : Bool) (env : PyEnv) (fs : FS) :
    (∀ fname : String,
      fname = get_env_name env.virtual_env env.conda_default_env ++ "-python-" ++
        (toString env.major ++ "." ++ toString env.minor) ++ ".txt" →
      '/' ∉ fname.data →
      targetPath env =
        joinSeg (joinSeg (parsePath env.file).parent.render "requirements") fname) ∧
    ((parsePath env.file).parent.child "requirements").render ∈
      (create_pip_requirement b env fs).fs.dirs ∧
    (∀ d ∈ fs.dirs, d ∈ (create_pip_requirement b env fs).fs.dirs) ∧
    targetPath
      { virtual_env := none, conda_default_env := some "myenv",
        executable := "/usr/bin/python3", major := 3, minor := 11,
        file := "/home/u/proj/tool.py", pip_freeze := PipResult.ok "" "" } =
      "/home/u/proj/requirements/myenv-python-3.11.txt" := by
  refine ⟨?_, run_dirs_requirements b env fs,
    fun d hd => run_dirs_mono b env fs d hd, by decide⟩
  intro fname hf hsl
  have hdata : fname.data =
      (get_env_name env.virtual_env env.conda_default_env ++ "-python-" ++
        (toString env.major ++ "." ++ toString env.minor)).data ++
        ['.', 't', 'x', 't'] := by
    rw [hf]
    simp [String.data_append]
  have hne : fname ≠ "" := by
    intro h0
    rw [h0] at hdata
    simp at hdata
  have hdot : fname ≠ "." := by
    intro h0
    rw [h0] at hdata
    have hlen := congrArg List.length hdata
    simp at hlen
    omega
  have hseg := parsePath_single fname hsl hne hdot
  have hparent : ∀ q ∈ (parsePath env.file).parent.parts,
      q ≠ "" ∧ q ≠ "." ∧ '/' ∉ q.data := by
    intro q hq
    simp only [PyPath.parent] at hq
    exact parsePath_parts_good env.file q (List.mem_of_mem_dropLast hq)
  have hreq : ∀ q ∈ ((parsePath env.file).parent.child "requirements").parts,
      q ≠ "" ∧ q ≠ "." ∧ '/' ∉ q.data := by
    rw [child_requirements]
    intro q hq
    rcases List.mem_append.mp hq with h1 | h2
    · exact hparent q h1
    · have hqr : q = "requirements" := by simpa using h2
      subst hqr
      exact ⟨by decide, by decide, by decide⟩
  rw [targetPath, ← hf, render_child_single _ fname hreq hseg, child_requirements,
    render_append_one _ _ hparent]

/-- Witness for C4 (amended): with a plain conda identity the path
formula holds concretely. -/
theorem C4_output_path_amended_witness :
    targetPath
      { virtual_env := none, conda_default_env := some "myenv",
        executable := "/usr/bin/python3", major := 3, minor := 11,
        file := "/home/u/proj/tool.py", pip_freeze := PipResult.ok "" "" } =
      joinSeg (joinSeg (parsePath "/home/u/proj/tool.py").parent.render "requirements")
        (get_env_name none (some "myenv") ++ "-python-" ++
          (toString 3 ++ "." ++ toString 11) ++ ".txt") :=
  (C4_output_path_amended true
    { virtual_env := none, conda_default_env := some "myenv",
      executable := "/usr/bin/python3", major := 3, minor := 11,
      file := "/home/u/proj/tool.py", pip_freeze := PipResult.ok "" "" }
    { dirs := [], files := [] }).1 _ rfl (by decide)

/-- C5: with the environment (and hence the pip listing) unchanged, the
content found at the target path after a successful run is the processed
listing, independent of the prior filesystem state (the write is a
wholesale overwrite, never an append); in particular a second run leaves
byte-identical content. -/
theorem C5_idempotent_overwrite (b : Bool) (env : PyEnv) (fs : FS) (so se : String)
    (h : env.pip_freeze = .ok so se) :
    (∀ fs2 : FS, (create_pip_requirement b env fs2).fs.readFile (targetPath env) =
      some (processOutput so b)) ∧
    (create_pip_requirement b env
        (create_pip_requirement b env fs).fs).fs.readFile (targetPath env) =
      (create_pip_requirement b env fs).fs.readFile (targetPath env) := by
  refine ⟨fun fs2 => run_ok_readFile b env fs2 so se h, ?_⟩
  rw [run_ok_readFile b env _ so se h, run_ok_readFile b env fs so se h]

/-- Witness for C5: a concrete run writes the stripped listing. -/
theorem C5_idempotent_overwrite_witness :
    (create_pip_requirement true
      { virtual_env := some "/opt/venvs/myenv", conda_default_env := none,
        executable := "/usr/bin/python3", major := 3, minor := 11,
        file := "/home/u/proj/tool.py",
        pip_freeze := PipResult.ok "foo==1.0\nbar==2.0" "" }
      { dirs := [], files := [] }).fs.readFile
      (targetPath
        { virtual_env := some "/opt/venvs/myenv", conda_default_env := none,
          executable := "/usr/bin/python3", major := 3, minor := 11,
          file := "/home/u/proj/tool.py",
          pip_freeze := PipResult.ok "foo==1.0\nbar==2.0" "" }) =
      some (processOutput "foo==1.0\nbar==2.0" true) :=
  (C5_idempotent_overwrite true
    { virtual_env := some "/opt/venvs/myenv", conda_default_env := none,
      executable := "/usr/bin/python3", major := 3, minor := 11,
      file := "/home/u/proj/tool.py",
      pip_freeze := PipResult.ok "foo==1.0\nbar==2.0" "" }
    { dirs := [], files := [] } "foo==1.0\nbar==2.0" "" rfl).1
    { dirs := [], files := [] }

/-- C6: the version-stripping behaviour is a single boolean parameter
whose default is enabled — the `__main__` entry point runs with
`remove_versions = True` — and with it the file receives the stripped
listing; stripping keeps exactly the text before the first `==`
separator. -/
theorem C6_default_version_strip (env : PyEnv) (fs : FS) (so se : String)
    (pre post : String) (h : env.pip_freeze = .ok so se)
    (hpre : strContains (pre ++ "=") "==" = false) :
    create_pip_requirement_main env fs = create_pip_requirement true env fs ∧
    (create_pip_requirement_main env fs).fs.readFile (targetPath env) =
      some (processOutput so true) ∧
    pyStripVersion (pre ++ "==" ++ post) = pre := by
  refine ⟨rfl, run_ok_readFile true env fs so se h, ?_⟩
  apply String.ext
  show (splitEqEq ((pre ++ "==" ++ post)).data).headD [] = pre.data
  have hd : (pre ++ "==" ++ post).data = pre.data ++ '=' :: '=' :: post.data := by
    simp [String.data_append]
  rw [hd]
  apply splitEqEq_before_sep
  have hd2 : (pre ++ "=").data = pre.data ++ ['='] := by
    simp [String.data_append]
  rw [strContains, hd2] at hpre
  exact hpre

/-- Witness for C6: on a concrete run with the default switch, stripping
`foo==1.0` yields `foo`. -/
theorem C6_default_version_strip_witness :
    pyStripVersion ("foo" ++ "==" ++ "1.0") = "foo" :=
  (C6_default_version_strip
    { virtual_env := none, conda_default_env := none,
      executable := "/usr/bin/python3", major := 3, minor := 11,
      file := "/home/u/proj/tool.py", pip_freeze := PipResult.ok "" "" }
    { dirs := [], files := [] } "" "" "foo" "1.0" rfl (by decide)).2.2

/-- C7 fails as stated: with `VIRTUAL_ENV` set to `"/"` (whose final path
segment is empty) the resolver returns the empty string. -/
theorem C7_counterexample_root_venv : get_env_name (some "/") none = "" := by decide

/-- C7 (amended): the resolver is a total function (no failure modes, no
side effects in the model), and its result is empty exactly when
`VIRTUAL_ENV` is set to a non-empty value whose final path segment is
empty (such as `"/"` or `"."`); in every other configuration the result
is non-empty. -/
theorem C7_total_nonempty_amended (venv conda : Option String) :
    get_env_name venv conda = "" ↔
      ∃ v, venv = some v ∧ v ≠ "" ∧ (parsePath v).name = "" := by
  by_cases hv : optTruthy venv = true
  · rcases venv with _ | v
    · simp [optTruthy] at hv
    · have hvne : v ≠ "" := by simpa [optTruthy] using hv
      rw [get_env_name, if_pos hv]
      constructor
      · intro h
        exact ⟨v, rfl, hvne, h⟩
      · rintro ⟨w, hw, _, hname⟩
        have hvw : v = w := by injection hw
        subst hvw
        exact hname
  · have h1 : get_env_name venv conda ≠ "" := by
      rw [get_env_name, if_neg hv]
      by_cases hc : optTruthy conda = true
      · rw [if_pos hc]
        rcases conda with _ | c
        · simp [optTruthy] at hc
        · simpa [optTruthy] using hc
      · rw [if_neg hc]
        decide
    constructor
    · intro h
      exact absurd h h1
    · rintro ⟨w, hw, hwne, _⟩
      exfalso
      rw [hw] at hv
      exact hv (by simpa [optTruthy] using hwne)

/-- Witness for C7 (amended): the backward direction applied at `"/"`. -/
theorem C7_total_nonempty_amended_witness :
    get_env_name (some "/") (some "base") = "" :=
  (C7_total_nonempty_amended (some "/") (some "base")).mpr ⟨"/", rfl, by decide, by decide⟩

/-- C8: even when the child pip process fails, the `requirements`
directory beside the script has already been created (directory creation
precedes the `try` block), while the file table is untouched. -/
theorem C8_dir_created_despite_failure (b : Bool) (env : PyEnv) (fs : FS) (rc : Int)
    (so se : String) (h : env.pip_freeze = .err rc so se) :
    ((parsePath env.file).parent.child "requirements").render ∈
      (create_pip_requirement b env fs).fs.dirs ∧
    (create_pip_requirement b env fs).fs.files = fs.files :=
  ⟨run_dirs_requirements b env fs, (run_err_effects b env fs rc so se h).1⟩

/-- Witness for C8: the directory appears on a concrete failing run. -/
theorem C8_dir_created_despite_failure_witness :
    ((parsePath "/home/u/proj/tool.py").parent.child "requirements").render ∈
      (create_pip_requirement true
        { virtual_env := none, conda_default_env := none,
          executable := "/usr/bin/python3", major := 3, minor := 11,
          file := "/home/u/proj/tool.py",
          pip_freeze := PipResult.err 1 "" "boom" }
        { dirs := [], files := [] }).fs.dirs :=
  (C8_dir_created_despite_failure true
    { virtual_env := none, conda_default_env := none,
      executable := "/usr/bin/python3", major := 3, minor := 11,
      file := "/home/u/proj/tool.py",
      pip_freeze := PipResult.err 1 "" "boom" }
    { dirs := [], files := [] } 1 "" "boom" rfl).1

/-- C9: a variable set to the empty string behaves exactly like an unset
variable: an empty `VIRTUAL_ENV` falls through to `CONDA_DEFAULT_ENV`
(whatever it holds), and when that one is empty as well the resolver
returns `"global"`. -/
theorem C9_empty_treated_as_unset :
    (∀ conda : Option String, get_env_name (some "") conda = get_env_name none conda) ∧
    get_env_name (some "") (some "") = "global" ∧
    get_env_name none (some "") = "global" := by
  refine ⟨?_, by decide, by decide⟩
  intro conda
  have h : optTruthy (some "") = false := by decide
  rw [get_env_name, get_env_name, h]
  simp [optTruthy]

/-- C10: with version-stripping enabled, a line with no `==` separator is
left intact by the stripping step (`line.split("==")[0]` is the whole
line). -/
theorem C10_no_separator_unchanged (line : String) (h : strContains line "==" = false) :
    pyStripVersion line = line := by
  apply String.ext
  show (splitEqEq line.data).headD [] = line.data
  have h' : containsSeq ['=', '='] line.data = false := h
  rw [noEqEq_splitEqEq line.data h']
  rfl

/-- Witness for C10: a direct-reference line without `==` is unchanged. -/
theorem C10_no_separator_unchanged_witness :
    pyStripVersion "certifi @ file:///builds/certifi" = "certifi @ file:///builds/certifi" :=
  C10_no_separator_unchanged "certifi @ file:///builds/certifi" (by decide)

end PyReq
